import Mathlib

/-!
Verification of the Kanban board model of `src/apps/KanbanApplication.jsx`.

The model classes `KanbanModelItem`, `KanbanModelList` and `KanbanModel` are
embedded as Lean structures; their mutating methods become functions returning
updated values (in-place mutation of an array slot is modelled by `List.set`).
The three regular expressions used by `KanbanModel.deserialize`
(`/^[*-]\s*(.*)$/`, `/^\s+[*-]\s*(.*)$/`, `/^([*_]*)(.*?)([*_]*)$/`, no flags)
are embedded by the functions `matchList`, `matchItem` and `matchText` below;
each embeds the full ECMAScript matching semantics of its pattern, including
greedy/lazy backtracking and the fact that `.` does not match a line
terminator.  JavaScript's `str.split('\n')` is embedded by `splitLines`,
`Array.prototype.join('\n')` by `joinLines`, and lodash `isEqual` (deep
structural equality of the plain data tree) by decidable equality of the
structures.  A thrown exception inside `deserialize`'s `try` block is
modelled by an `Option.none` result of the per-line step, which the outer
`deserialize` turns into an empty board exactly as the `catch` clause does.
-/

/-- ECMAScript `\s` (WhiteSpace ∪ LineTerminator) character class. -/
def isJsSpace (c : Char) : Bool :=
  c = '\t' || c = '\n' || c = '\u000B' || c = '\u000C' || c = '\r' || c = ' ' ||
  c = '\u00A0' || c = '\u1680' || ('\u2000' ≤ c && c ≤ '\u200A') ||
  c = '\u2028' || c = '\u2029' || c = '\u202F' || c = '\u205F' ||
  c = '\u3000' || c = '\uFEFF'

/-- ECMAScript LineTerminator characters: the characters `.` does not match. -/
def isLineTerm (c : Char) : Bool :=
  c = '\n' || c = '\r' || c = '\u2028' || c = '\u2029'

/-- Characters of the `[*_]` class of the emphasis-marker regex. -/
def isMarker (c : Char) : Bool :=
  c = '*' || c = '_'

/-- Embedding of `l.match(/^[*-]\s*(.*)$/)`: `some` of the capture group when
the line matches, `none` when `match` returns `null`.  The greedy `\s*` takes
the maximal whitespace run; backtracking cannot rescue a line terminator left
in the remainder because dropping whitespace characters from the run only
prepends characters to the remainder. -/
def matchList : List Char → Option (List Char)
  | [] => none
  | c :: t =>
    if c = '*' || c = '-' then
      if (t.dropWhile isJsSpace).all (fun c2 => !isLineTerm c2) then
        some (t.dropWhile isJsSpace)
      else none
    else none

/-- Embedding of `l.match(/^\s+[*-]\s*(.*)$/)`: `some` of the capture group, or
`none` when `match` returns `null`.  `\s+` must take the maximal whitespace
run (a shorter run leaves a whitespace character where `[*-]` is required). -/
def matchItem (l : List Char) : Option (List Char) :=
  match l.takeWhile isJsSpace with
  | [] => none
  | _ :: _ =>
    match l.dropWhile isJsSpace with
    | [] => none
    | c :: t =>
      if c = '*' || c = '-' then
        if (t.dropWhile isJsSpace).all (fun c2 => !isLineTerm c2) then
          some (t.dropWhile isJsSpace)
        else none
      else none

/-- Embedding of `text.match(/^([*_]*)(.*?)([*_]*)$/)` returning the three
capture groups.  The greedy first group is the maximal `[*_]` run; the lazy
middle group grows until the rest of the input is all `[*_]` characters, so
the third group is the maximal `[*_]` suffix of what remains.  When the input
contains a line terminator outside positions the groups can absorb, `match`
returns `null`; since `[*_]*` and `.` match no line terminator, that happens
exactly when the input contains a line terminator at all. -/
def matchText (t : List Char) : Option (List Char × List Char × List Char) :=
  if t.all (fun c => !isLineTerm c) then
    some (t.takeWhile isMarker,
      ((t.dropWhile isMarker).reverse.dropWhile isMarker).reverse,
      ((t.dropWhile isMarker).reverse.takeWhile isMarker).reverse)
  else none

/-- Embedding of `str.split('\n')` (single-character string separator). -/
def splitLines : List Char → List (List Char)
  | [] => [[]]
  | c :: cs =>
    if c = '\n' then [] :: splitLines cs
    else
      match splitLines cs with
      | [] => [[c]]
      | l :: ls => (c :: l) :: ls

/-- Embedding of `Array.prototype.join('\n')` on a list of strings. -/
def joinLines : List String → String
  | [] => ""
  | [s] => s
  | s :: ss => s ++ "\n" ++ joinLines ss

/-- Character-level counterpart of `joinLines`. -/
def joinNLC : List (List Char) → List Char
  | [] => []
  | [l] => l
  | l :: ls => l ++ '\n' :: joinNLC ls

/-- Class `KanbanModelItem`: `{ name, importance }` with `importance = 0` by
default. -/
structure KanbanModelItem where
  name : String
  importance : Nat := 0
deriving DecidableEq, Repr

/-- Method `KanbanModelItem.toMarkdown`: the name wrapped symmetrically in
`importance` repetitions of `*` (`repeat('*', this.importance)`). -/
def KanbanModelItem.toMarkdown (it : KanbanModelItem) : String :=
  let emphasis := String.mk (List.replicate it.importance '*')
  emphasis ++ it.name ++ emphasis

/-- Class `KanbanModelList`: `{ name, items }`. -/
structure KanbanModelList where
  name : String
  items : List KanbanModelItem
deriving DecidableEq, Repr

/-- Method `addItem(text, importance = 0)`: push a new item at the end. -/
def KanbanModelList.addItem (l : KanbanModelList) (text : String)
    (importance : Nat := 0) : KanbanModelList :=
  ⟨l.name, l.items ++ [⟨text, importance⟩]⟩

/-- Method `insertItem(index, item)`: `splice(index, 0, item)`.  For a
non-negative index past the end, `splice` appends, which `take`/`drop` also
do. -/
def KanbanModelList.insertItem (l : KanbanModelList) (index : Nat)
    (item : KanbanModelItem) : KanbanModelList :=
  ⟨l.name, l.items.take index ++ item :: l.items.drop index⟩

/-- Method `getLength()`. -/
def KanbanModelList.getLength (l : KanbanModelList) : Nat :=
  l.items.length

/-- Method `getItemAt(index)`: `none` models the `undefined` result of an
out-of-range array read. -/
def KanbanModelList.getItemAt (l : KanbanModelList) (index : Nat) :
    Option KanbanModelItem :=
  l.items[index]?

/-- Method `removeItemAt(index)`: `splice(index, 1)`; out of range removes
nothing. -/
def KanbanModelList.removeItemAt (l : KanbanModelList) (index : Nat) :
    KanbanModelList :=
  ⟨l.name, l.items.take index ++ l.items.drop (index + 1)⟩

/-- Method `KanbanModelList.toMarkdown`: `['* name', ...items].join('\n')`. -/
def KanbanModelList.toMarkdown (l : KanbanModelList) : String :=
  joinLines (("* " ++ l.name) :: l.items.map (fun i => "  * " ++ i.toMarkdown))

/-- Class `KanbanModel`: `{ lists }`. -/
structure KanbanModel where
  lists : List KanbanModelList
deriving DecidableEq, Repr

/-- Method `addList(str)`: push a new empty list. -/
def KanbanModel.addList (m : KanbanModel) (str : String) : KanbanModel :=
  ⟨m.lists ++ [⟨str, []⟩]⟩

/-- Method `getLength()`. -/
def KanbanModel.getLength (m : KanbanModel) : Nat :=
  m.lists.length

/-- Method `getListAt(index)`: `none` models an `undefined` out-of-range
read. -/
def KanbanModel.getListAt (m : KanbanModel) (index : Nat) :
    Option KanbanModelList :=
  m.lists[index]?

/-- Writing back a mutated list into its array slot (the in-place mutation of
`this.lists[index]` performed through the aliased `KanbanModelList` object). -/
def KanbanModel.setListAt (m : KanbanModel) (index : Nat)
    (l : KanbanModelList) : KanbanModel :=
  ⟨m.lists.set index l⟩

/-- Method `moveItem(fromListIndex, fromItemIndex, toListIndex, toItemIndex)`.
`none` models the runtime errors of the out-of-range cases (reading a list at
an invalid index yields `undefined` and the subsequent method call throws; an
invalid item index would insert the value `undefined`, which is not a
`KanbanModelItem`).  In range, it is exactly the source's sequence: fetch the
source list, fetch the item, remove it from the source list, then insert into
the destination list as read from the already-mutated model. -/
def KanbanModel.moveItem (m : KanbanModel)
    (fromListIndex fromItemIndex toListIndex toItemIndex : Nat) :
    Option KanbanModel :=
  match m.getListAt fromListIndex with
  | none => none
  | some fromList =>
    match fromList.getItemAt fromItemIndex with
    | none => none
    | some item =>
      let m1 := m.setListAt fromListIndex (fromList.removeItemAt fromItemIndex)
      match m1.getListAt toListIndex with
      | none => none
      | some toList =>
        some (m1.setListAt toListIndex (toList.insertItem toItemIndex item))

/-- Removing the item at a board position (the first half of `moveItem`). -/
def KanbanModel.removeItemAtPos (m : KanbanModel) (li ii : Nat) : KanbanModel :=
  match m.getListAt li with
  | some l => m.setListAt li (l.removeItemAt ii)
  | none => m

/-- Inserting an item at a board position (the second half of `moveItem`). -/
def KanbanModel.insertItemAtPos (m : KanbanModel) (li ii : Nat)
    (it : KanbanModelItem) : KanbanModel :=
  match m.getListAt li with
  | some l => m.setListAt li (l.insertItem ii it)
  | none => m

/-- Method `equals(other)`: lodash `isEqual`, i.e. deep structural equality of
the `lists → items → {name, importance}` tree. -/
def KanbanModel.equals (m other : KanbanModel) : Bool :=
  decide (m = other)

/-- Method `serialize()`: `this.lists.map(l => l.toMarkdown()).join('\n')`. -/
def KanbanModel.serialize (m : KanbanModel) : String :=
  joinLines (m.lists.map KanbanModelList.toMarkdown)

/-- One iteration of the `lines.forEach` body of `KanbanModel.deserialize`.
`none` models a thrown exception (the only possible throw for a string input
is `matchText` returning `null` followed by the `matchText[1]` read).  The
ternary `matchText[1] ? matchText[1].length : 0` equals `matchText[1].length`
because the empty string has length `0`. -/
def deserializeLine (m : KanbanModel) (l : List Char) : Option KanbanModel :=
  match matchList l with
  | some r => some (m.addList (String.mk r))
  | none =>
    match matchItem l with
    | some raw =>
      match m.lists[m.lists.length - 1]? with
      | none => some m
      | some last =>
        match matchText raw with
        | none => none
        | some (pre, mid, suf) =>
          some (m.setListAt (m.lists.length - 1)
            (last.addItem (String.mk mid) (min (min 3 pre.length) suf.length)))
    | none => some m

/-- The `lines.forEach` loop with exception propagation. -/
def processLines : KanbanModel → List (List Char) → Option KanbanModel
  | m, [] => some m
  | m, l :: ls =>
    match deserializeLine m l with
    | some m2 => processLines m2 ls
    | none => none

/-- Static method `KanbanModel.deserialize(str)`: split on `'\n'`, run the
per-line loop, and turn any exception into a fresh empty model (the `catch`
clause). -/
def KanbanModel.deserialize (str : String) : KanbanModel :=
  match processLines ⟨[]⟩ (splitLines str.toList) with
  | some m => m
  | none => ⟨[]⟩

/-- Whether the head character (if any) satisfies `p`. -/
def headSatisfies (p : Char → Bool) : List Char → Bool
  | [] => true
  | c :: _ => p c

/-- The emphasis wrapper of an item, as characters. -/
def emphChars (it : KanbanModelItem) : List Char :=
  List.replicate it.importance '*'

/-- The characters of the serialized line of one item
(`"  * " ++ it.toMarkdown`). -/
def itemLineC (it : KanbanModelItem) : List Char :=
  ' ' :: ' ' :: '*' :: ' ' :: (emphChars it ++ it.name.toList ++ emphChars it)

/-- The serialized lines of one list (`l.toMarkdown` split at newlines), as
character lists. -/
def blockLinesC (l : KanbanModelList) : List (List Char) :=
  ('*' :: ' ' :: l.name.toList) :: l.items.map itemLineC

/-- A list name as produced by `deserialize`: free of line terminators (it is
a capture of `.*`) and with no leading whitespace character (it is what is
left after the greedy `\s*`). -/
def wfListName (nm : List Char) : Prop :=
  nm.all (fun c => !isLineTerm c) = true ∧
  headSatisfies (fun c => !isJsSpace c) nm = true

/-- An item as produced by `deserialize`: the name is free of line
terminators and neither starts nor ends with a `*`/`_` marker character, the
importance is at most `3`, and an empty name forces importance `0`. -/
def wfItem (it : KanbanModelItem) : Prop :=
  it.name.toList.all (fun c => !isLineTerm c) = true ∧
  headSatisfies (fun c => !isMarker c) it.name.toList = true ∧
  headSatisfies (fun c => !isMarker c) it.name.toList.reverse = true ∧
  it.importance ≤ 3 ∧
  (it.name.toList = [] → it.importance = 0)

/-- A list as produced by `deserialize`. -/
def wfList (l : KanbanModelList) : Prop :=
  wfListName l.name.toList ∧ ∀ it ∈ l.items, wfItem it

/-- A board as produced by `deserialize`. -/
def wfBoard (m : KanbanModel) : Prop :=
  ∀ l ∈ m.lists, wfList l

/-- No importance-`0` item of the board has a name that starts with a
whitespace character.  Serializing such an item puts its leading whitespace
directly after `"  * "`, where the greedy `\s*` of the item regex swallows
it on re-parsing, so this is exactly the side condition under which
serialization round-trips. -/
def noLeadingSpaceZeroItems (m : KanbanModel) : Prop :=
  ∀ l ∈ m.lists, ∀ it ∈ l.items, it.importance = 0 →
    headSatisfies (fun c => !isJsSpace c) it.name.toList = true

/-- The multiset of all item values of a board, across all lists. -/
def KanbanModel.allItems (m : KanbanModel) : Multiset KanbanModelItem :=
  (m.lists.map (fun l => (l.items : Multiset KanbanModelItem))).sum

instance (nm : List Char) : Decidable (wfListName nm) := by
  unfold wfListName; infer_instance

instance (it : KanbanModelItem) : Decidable (wfItem it) := by
  unfold wfItem; infer_instance

instance (l : KanbanModelList) : Decidable (wfList l) := by
  unfold wfList; infer_instance

instance (m : KanbanModel) : Decidable (wfBoard m) := by
  unfold wfBoard; infer_instance

instance (m : KanbanModel) : Decidable (noLeadingSpaceZeroItems m) := by
  unfold noLeadingSpaceZeroItems; infer_instance

/-! ### Generic helper lemmas -/

theorem headSatisfies_dropWhile (p : Char → Bool) (l : List Char) :
    headSatisfies (fun c => !p c) (l.dropWhile p) = true := by
  induction l with
  | nil => rfl
  | cons c t ih =>
    by_cases h : p c
    · simpa [List.dropWhile_cons_of_pos h] using ih
    · simp [List.dropWhile_cons_of_neg h, headSatisfies, h]

theorem dropWhile_of_headSatisfies {p : Char → Bool} {l : List Char}
    (h : headSatisfies (fun c => !p c) l = true) : l.dropWhile p = l := by
  cases l with
  | nil => rfl
  | cons c t =>
    simp only [headSatisfies, Bool.not_eq_true'] at h
    exact List.dropWhile_cons_of_neg (by simp [h])

theorem set_concat_length (L : List α) (a b : α) :
    (L ++ [a]).set L.length b = L ++ [b] := by
  induction L with
  | nil => rfl
  | cons x t ih => simp [ih]

/-! ### Properties of the regex embeddings -/

theorem matchItem_some_no_term {l raw : List Char}
    (h : matchItem l = some raw) :
    raw.all (fun c => !isLineTerm c) = true := by
  unfold matchItem at h
  split at h
  · exact absurd h (by simp)
  · split at h
    · exact absurd h (by simp)
    · split at h
      · split at h
        · simp only [Option.some.injEq] at h
          subst h; assumption
        · exact absurd h (by simp)
      · exact absurd h (by simp)

theorem matchList_some_props {l r : List Char}
    (h : matchList l = some r) :
    r.all (fun c => !isLineTerm c) = true ∧
    headSatisfies (fun c => !isJsSpace c) r = true := by
  unfold matchList at h
  split at h
  · exact absurd h (by simp)
  · split at h
    · split at h
      · simp only [Option.some.injEq] at h
        subst h
        exact ⟨by assumption, headSatisfies_dropWhile _ _⟩
      · exact absurd h (by simp)
    · exact absurd h (by simp)

/-! ### Claim C6: concrete deserialization example -/

/-- C6: deserializing `"* Todo\n  * Buy milk\n  * **Call mom**"` yields a
board with exactly one list named `Todo` whose items are, in order,
`{name: "Buy milk", importance: 0}` and `{name: "Call mom", importance: 2}`. -/
theorem C6_deserialize_example :
    KanbanModel.deserialize "* Todo\n  * Buy milk\n  * **Call mom**" =
      ⟨[⟨"Todo", [⟨"Buy milk", 0⟩, ⟨"Call mom", 2⟩]⟩]⟩ := by
  decide

/-! ### Claim C7: equality is deep, structural and order-sensitive -/

/-- C7: `Board.equals` holds exactly when the two boards are structurally
equal over the whole `lists → items → {name, importance}` tree, and it is
order-sensitive: boards with the same two distinct lists in swapped order are
not equal. -/
theorem C7_equals_structural :
    (∀ a b : KanbanModel, a.equals b = true ↔ a = b) ∧
    (∀ X Y : KanbanModelList, X ≠ Y →
      (KanbanModel.mk [X, Y]).equals (KanbanModel.mk [Y, X]) = false) := by
  constructor
  · intro a b
    simp [KanbanModel.equals]
  · intro X Y h
    have hne : ¬(KanbanModel.mk [X, Y] = KanbanModel.mk [Y, X]) := by
      intro he
      apply h
      have h2 := congrArg KanbanModel.lists he
      simp only [List.cons.injEq, and_true] at h2
      exact h2.1
    simp [KanbanModel.equals, hne]

/-- Witness for C7 at concrete distinct lists. -/
theorem C7_equals_structural_witness :
    (KanbanModel.mk [⟨"X", []⟩, ⟨"Y", []⟩]).equals
      (KanbanModel.mk [⟨"Y", []⟩, ⟨"X", []⟩]) = false :=
  C7_equals_structural.2 ⟨"X", []⟩ ⟨"Y", []⟩ (by decide)

/-! ### Claim C2: moveItem removes first, then inserts -/

/-- C2: for in-range indices, `moveItem` removes the item at
`(fromListIndex, fromItemIndex)` first and then inserts that item at
`(toListIndex, toItemIndex)` of the board as it stands after the removal, so
a same-list destination index is interpreted post-removal; in particular a
list `[A, B, C]` with `moveItem(0,0,0,2)` becomes `[B, C, A]`, and a board
`List0=[A], List1=[]` with `moveItem(0,0,1,0)` becomes `List0=[], List1=[A]`. -/
theorem C2_moveItem_semantics :
    (∀ (m : KanbanModel) (fl fi tl ti : Nat) (L : KanbanModelList)
        (item : KanbanModelItem),
        m.getListAt fl = some L → L.getItemAt fi = some item →
        tl < m.lists.length →
        m.moveItem fl fi tl ti =
          some ((m.removeItemAtPos fl fi).insertItemAtPos tl ti item)) ∧
    (∀ (A B C : KanbanModelItem) (nm : String),
        (KanbanModel.mk [⟨nm, [A, B, C]⟩]).moveItem 0 0 0 2 =
          some ⟨[⟨nm, [B, C, A]⟩]⟩) ∧
    (∀ (A : KanbanModelItem) (nm0 nm1 : String),
        (KanbanModel.mk [⟨nm0, [A]⟩, ⟨nm1, []⟩]).moveItem 0 0 1 0 =
          some ⟨[⟨nm0, []⟩, ⟨nm1, [A]⟩]⟩) := by
  refine ⟨?_, ?_, ?_⟩
  · intro m fl fi tl ti L item h1 h2 htl
    have hlen : tl < ((m.setListAt fl (L.removeItemAt fi)).lists).length := by
      simpa [KanbanModel.setListAt] using htl
    obtain ⟨TL, hTL⟩ : ∃ TL,
        (m.setListAt fl (L.removeItemAt fi)).getListAt tl = some TL := by
      unfold KanbanModel.getListAt
      exact ⟨_, List.getElem?_eq_getElem hlen⟩
    unfold KanbanModel.moveItem KanbanModel.removeItemAtPos
      KanbanModel.insertItemAtPos
    rw [h1]
    dsimp only
    rw [h2]
    dsimp only
    rw [hTL]
  · intro A B C nm
    rfl
  · intro A nm0 nm1
    rfl

/-- Witness for C2 on the spec's same-list example. -/
theorem C2_moveItem_semantics_witness :
    (KanbanModel.mk [⟨"A", [⟨"a", 0⟩, ⟨"b", 0⟩, ⟨"c", 0⟩]⟩]).moveItem 0 0 0 2 =
      some (((KanbanModel.mk [⟨"A", [⟨"a", 0⟩, ⟨"b", 0⟩, ⟨"c", 0⟩]⟩]).removeItemAtPos
        0 0).insertItemAtPos 0 2 ⟨"a", 0⟩) :=
  C2_moveItem_semantics.1 _ 0 0 0 2 _ _ rfl rfl (by decide)

/-! ### Per-line behavior of deserialize -/

theorem deserializeLine_empty_board (l : List Char)
    (h : matchList l = none) :
    deserializeLine ⟨[]⟩ l = some ⟨[]⟩ := by
  unfold deserializeLine
  rw [h]
  dsimp only
  cases hmi : matchItem l with
  | none => rfl
  | some raw => rfl

theorem processLines_no_list (ls : List (List Char))
    (h : ∀ l ∈ ls, matchList l = none) :
    processLines ⟨[]⟩ ls = some ⟨[]⟩ := by
  induction ls with
  | nil => rfl
  | cons l t ih =>
    unfold processLines
    rw [deserializeLine_empty_board l (h l (by simp))]
    exact ih (fun x hx => h x (by simp [hx]))

theorem lists_concat_getLast (m : KanbanModel) (L : List KanbanModelList)
    (last : KanbanModelList) (h : m.lists = L ++ [last]) :
    m.lists[m.lists.length - 1]? = some last := by
  rw [h]
  have hl : (L ++ [last]).length - 1 = L.length := by simp
  rw [hl, List.getElem?_concat_length]

theorem matchText_isSome {t : List Char}
    (h : t.all (fun c => !isLineTerm c) = true) :
    matchText t =
      some (t.takeWhile isMarker,
        ((t.dropWhile isMarker).reverse.dropWhile isMarker).reverse,
        ((t.dropWhile isMarker).reverse.takeWhile isMarker).reverse) := by
  unfold matchText
  rw [if_pos h]

theorem matchText_props {t pre mid suf : List Char}
    (h : matchText t = some (pre, mid, suf)) :
    t = pre ++ (mid ++ suf) ∧
    (∀ c ∈ pre, isMarker c = true) ∧
    (∀ c ∈ suf, isMarker c = true) ∧
    headSatisfies (fun c => !isMarker c) mid = true ∧
    headSatisfies (fun c => !isMarker c) mid.reverse = true ∧
    (mid = [] → suf = []) ∧
    mid.all (fun c => !isLineTerm c) = true := by
  unfold matchText at h
  split at h
  case isFalse => exact absurd h (by simp)
  case isTrue hterm =>
  simp only [Option.some.injEq, Prod.mk.injEq] at h
  obtain ⟨hpre, hmid, hsuf⟩ := h
  subst hpre hmid hsuf
  have hmidsuf : ((t.dropWhile isMarker).reverse.dropWhile isMarker).reverse ++
      ((t.dropWhile isMarker).reverse.takeWhile isMarker).reverse =
      t.dropWhile isMarker := by
    rw [← List.reverse_append, List.takeWhile_append_dropWhile,
      List.reverse_reverse]
  refine ⟨?_, ?_, ?_, ?_, ?_, ?_, ?_⟩
  · rw [hmidsuf, List.takeWhile_append_dropWhile]
  · intro c hc
    exact List.mem_takeWhile_imp hc
  · intro c hc
    rw [List.mem_reverse] at hc
    exact List.mem_takeWhile_imp hc
  · have hu := headSatisfies_dropWhile isMarker t
    rw [← hmidsuf] at hu
    cases hmm : ((t.dropWhile isMarker).reverse.dropWhile isMarker).reverse with
    | nil => rfl
    | cons c cs =>
      rw [hmm] at hu
      exact hu
  · rw [List.reverse_reverse]
    exact headSatisfies_dropWhile isMarker _
  · intro hnil
    rw [List.reverse_eq_nil_iff, List.dropWhile_eq_nil_iff] at hnil
    have hu : t.dropWhile isMarker = [] := by
      cases hu2 : t.dropWhile isMarker with
      | nil => rfl
      | cons c cs =>
        have hhead := headSatisfies_dropWhile isMarker t
        rw [hu2] at hhead
        simp only [headSatisfies, Bool.not_eq_true'] at hhead
        have : isMarker c = true := by
          apply hnil
          rw [List.mem_reverse, hu2]
          exact List.mem_cons_self c cs
        rw [this] at hhead
        exact absurd hhead (by simp)
    rw [hu]
    simp
  · rw [List.all_eq_true] at hterm ⊢
    intro c hc
    apply hterm
    have hc2 : c ∈ t.dropWhile isMarker := by
      rw [← hmidsuf]
      exact List.mem_append_left _ hc
    exact (List.dropWhile_sublist isMarker).subset hc2

theorem deserializeLine_item {m : KanbanModel} {l raw : List Char}
    {L : List KanbanModelList} {last : KanbanModelList}
    {pre mid suf : List Char}
    (hl : matchList l = none) (hi : matchItem l = some raw)
    (hm : m.lists = L ++ [last])
    (ht : matchText raw = some (pre, mid, suf)) :
    deserializeLine m l =
      some ⟨L ++ [⟨last.name, last.items ++
        [⟨String.mk mid, min (min 3 pre.length) suf.length⟩]⟩]⟩ := by
  unfold deserializeLine
  rw [hl]
  dsimp only
  rw [hi]
  dsimp only
  rw [lists_concat_getLast m L last hm]
  dsimp only
  rw [ht]
  dsimp only
  unfold KanbanModel.setListAt KanbanModelList.addItem
  rw [hm]
  have hlen : (L ++ [last]).length - 1 = L.length := by simp
  rw [hlen, set_concat_length]

/-! ### Claim C4: deserialize never propagates an error -/

/-- C4: `deserialize` is a total function into boards; any input none of
whose lines matches the top-level bullet pattern yields an empty board
(`getLength = 0`), and in particular `""` and
`"random prose\nwith no bullets"` both yield an empty board. -/
theorem C4_deserialize_total_and_empty :
    (∀ s : String,
        (∀ line ∈ splitLines s.toList, matchList line = none) →
        (KanbanModel.deserialize s).getLength = 0) ∧
    (KanbanModel.deserialize "").getLength = 0 ∧
    (KanbanModel.deserialize "random prose\nwith no bullets").getLength = 0 := by
  refine ⟨?_, by decide, by decide⟩
  intro s h
  unfold KanbanModel.deserialize
  rw [processLines_no_list _ h]
  rfl

/-- Witness for C4 on a concrete bullet-free input. -/
theorem C4_deserialize_total_and_empty_witness :
    (KanbanModel.deserialize "no bullets here").getLength = 0 :=
  C4_deserialize_total_and_empty.1 "no bullets here" (by decide)

/-! ### Claim C8: item lines attach to the most recent list -/

/-- C8: during deserialize, a line that is not a top-level bullet but matches
the indented-bullet pattern appends one item to the most recently added list;
when no list has been added yet the line is ignored (the model is unchanged),
so item lines before any top-level bullet contribute nothing — e.g.
`"  * orphan\n* L"` yields just the empty list `L`. -/
theorem C8_item_line_attribution :
    (∀ (m : KanbanModel) (l raw : List Char),
        matchList l = none → matchItem l = some raw → m.lists = [] →
        deserializeLine m l = some m) ∧
    (∀ (m : KanbanModel) (l raw : List Char) (L : List KanbanModelList)
        (last : KanbanModelList),
        matchList l = none → matchItem l = some raw →
        m.lists = L ++ [last] →
        ∃ nm imp, deserializeLine m l =
          some ⟨L ++ [⟨last.name, last.items ++ [⟨nm, imp⟩]⟩]⟩) ∧
    KanbanModel.deserialize "  * orphan\n* L" = ⟨[⟨"L", []⟩]⟩ := by
  refine ⟨?_, ?_, by decide⟩
  · intro m l raw hl hi hm
    unfold deserializeLine
    rw [hl]
    dsimp only
    rw [hi]
    dsimp only
    have hnone : m.lists[m.lists.length - 1]? = none := by
      rw [hm]; rfl
    rw [hnone]
  · intro m l raw L last hl hi hm
    have hterm := matchItem_some_no_term hi
    have ht := matchText_isSome hterm
    exact ⟨_, _, deserializeLine_item hl hi hm ht⟩

/-- Witness for C8 on a concrete item line and board. -/
theorem C8_item_line_attribution_witness :
    deserializeLine ⟨[]⟩ "  * x".toList = some ⟨[]⟩ :=
  C8_item_line_attribution.1 ⟨[]⟩ "  * x".toList "x".toList (by decide)
    (by decide) rfl

/-! ### Claim C3: the emphasis-marker decomposition of item text -/

/-- C3: for every accepted item line, the raw item text decomposes as
leading-marker-run ++ middle ++ trailing-marker-run per the regex
`^([*_]*)(.*?)([*_]*)$` (both runs consist of `*`/`_` characters, counted
uniformly), the stored item has the middle capture as its name and
`min(3, left, right)` as its importance, and in particular `"**text*"`
yields importance `min(3, 2, 1) = 1`. -/
theorem C3_item_text_regex :
    (∀ (m : KanbanModel) (l raw pre mid suf : List Char)
        (L : List KanbanModelList) (last : KanbanModelList),
        matchList l = none → matchItem l = some raw →
        m.lists = L ++ [last] →
        matchText raw = some (pre, mid, suf) →
        raw = pre ++ (mid ++ suf) ∧
        (∀ c ∈ pre, isMarker c = true) ∧
        (∀ c ∈ suf, isMarker c = true) ∧
        deserializeLine m l =
          some ⟨L ++ [⟨last.name, last.items ++
            [⟨String.mk mid, min (min 3 pre.length) suf.length⟩]⟩]⟩) ∧
    matchText "**text*".toList =
      some ("**".toList, "text".toList, "*".toList) ∧
    min (min 3 "**".toList.length) "*".toList.length = 1 := by
  refine ⟨?_, by decide, by decide⟩
  intro m l raw pre mid suf L last hl hi hm ht
  obtain ⟨hdec, hpre, hsuf, -, -, -, -⟩ := matchText_props ht
  exact ⟨hdec, hpre, hsuf, deserializeLine_item hl hi hm ht⟩

/-- Witness for C3 on the line `"  * **text*"` appended to a one-list
board. -/
theorem C3_item_text_regex_witness :
    "**text*".toList = "**".toList ++ ("text".toList ++ "*".toList) ∧
    (∀ c ∈ "**".toList, isMarker c = true) ∧
    (∀ c ∈ "*".toList, isMarker c = true) ∧
    deserializeLine ⟨[⟨"L", []⟩]⟩ "  * **text*".toList =
      some ⟨[] ++ [⟨"L", [] ++ [⟨String.mk "text".toList,
        min (min 3 "**".toList.length) "*".toList.length⟩]⟩]⟩ :=
  C3_item_text_regex.1 ⟨[⟨"L", []⟩]⟩ "  * **text*".toList "**text*".toList
    "**".toList "text".toList "*".toList [] ⟨"L", []⟩
    (by decide) (by decide) rfl (by decide)

/-! ### Claim C10: moveItem preserves the multiset of items -/

theorem sum_map_set (g : KanbanModelList → Multiset KanbanModelItem)
    (ls : List KanbanModelList) (i : Nat) (a b : KanbanModelList)
    (h : ls[i]? = some b) :
    ((ls.set i a).map g).sum + g b = (ls.map g).sum + g a := by
  induction ls generalizing i with
  | nil => simp at h
  | cons x t ih =>
    cases i with
    | zero =>
      simp only [List.getElem?_cons_zero, Option.some.injEq] at h
      subst h
      simp only [List.set_cons_zero, List.map_cons, List.sum_cons]
      abel
    | succ n =>
      simp only [List.getElem?_cons_succ] at h
      simp only [List.set_cons_succ, List.map_cons, List.sum_cons]
      rw [add_assoc, ih n h, ← add_assoc]

theorem items_coe_remove (L : KanbanModelList) (fi : Nat)
    (item : KanbanModelItem) (h : L.items[fi]? = some item) :
    (L.items : Multiset KanbanModelItem) =
      item ::ₘ ((L.removeItemAt fi).items : Multiset KanbanModelItem) := by
  obtain ⟨hlt, hget⟩ := List.getElem?_eq_some_iff.mp h
  unfold KanbanModelList.removeItemAt
  have hdec : L.items = L.items.take fi ++ (item :: L.items.drop (fi + 1)) := by
    conv_lhs => rw [← List.take_append_drop fi L.items]
    rw [← List.getElem_cons_drop L.items fi hlt, hget]
  conv_lhs => rw [hdec]
  rw [← Multiset.coe_add, ← Multiset.coe_add, ← Multiset.cons_coe,
    Multiset.add_cons]

theorem items_coe_insert (L : KanbanModelList) (ti : Nat)
    (item : KanbanModelItem) :
    ((L.insertItem ti item).items : Multiset KanbanModelItem) =
      item ::ₘ (L.items : Multiset KanbanModelItem) := by
  unfold KanbanModelList.insertItem
  conv_rhs => rw [← List.take_append_drop ti L.items]
  rw [← Multiset.coe_add, ← Multiset.coe_add, ← Multiset.cons_coe,
    Multiset.add_cons]

/-- C10: whenever `moveItem` succeeds, it neither creates, duplicates nor
destroys items: the multiset of all `{name, importance}` item values across
all lists (and hence the total item count) is unchanged. -/
theorem C10_moveItem_preserves_items :
    ∀ (m m' : KanbanModel) (fl fi tl ti : Nat),
      m.moveItem fl fi tl ti = some m' →
      m'.allItems = m.allItems ∧
      Multiset.card m'.allItems = Multiset.card m.allItems := by
  intro m m' fl fi tl ti h
  suffices hs : m'.allItems = m.allItems by
    exact ⟨hs, by rw [hs]⟩
  unfold KanbanModel.moveItem at h
  cases hfl : m.getListAt fl with
  | none => rw [hfl] at h; exact absurd h (by simp)
  | some fromList =>
  rw [hfl] at h
  dsimp only at h
  cases hfi : fromList.getItemAt fi with
  | none => rw [hfi] at h; exact absurd h (by simp)
  | some item =>
  rw [hfi] at h
  dsimp only at h
  cases htl : (m.setListAt fl (fromList.removeItemAt fi)).getListAt tl with
  | none => rw [htl] at h; exact absurd h (by simp)
  | some toList =>
  rw [htl] at h
  dsimp only at h
  simp only [Option.some.injEq] at h
  subst h
  unfold KanbanModel.getListAt at hfl htl
  unfold KanbanModelList.getItemAt at hfi
  set g : KanbanModelList → Multiset KanbanModelItem :=
    fun l => (l.items : Multiset KanbanModelItem) with hg
  set m1 : KanbanModel := m.setListAt fl (fromList.removeItemAt fi) with hm1
  have e1 : m1.allItems + g fromList =
      m.allItems + g (fromList.removeItemAt fi) := by
    unfold KanbanModel.allItems
    exact sum_map_set g m.lists fl (fromList.removeItemAt fi) fromList hfl
  have e2 : (m1.setListAt tl (toList.insertItem ti item)).allItems + g toList =
      m1.allItems + g (toList.insertItem ti item) := by
    unfold KanbanModel.allItems
    exact sum_map_set g m1.lists tl (toList.insertItem ti item) toList htl
  have hrem : g fromList = item ::ₘ g (fromList.removeItemAt fi) :=
    items_coe_remove fromList fi item hfi
  have hins : g (toList.insertItem ti item) = item ::ₘ g toList :=
    items_coe_insert toList ti item
  rw [hrem] at e1
  rw [hins] at e2
  have e1' : m1.allItems + ({item} + g (fromList.removeItemAt fi)) =
      m.allItems + g (fromList.removeItemAt fi) := by
    rw [Multiset.singleton_add]; exact e1
  have e2' : (m1.setListAt tl (toList.insertItem ti item)).allItems + g toList =
      m1.allItems + ({item} + g toList) := by
    rw [Multiset.singleton_add]; exact e2
  have h1 : m1.allItems + {item} = m.allItems := by
    have := e1'
    rw [← add_assoc] at this
    exact add_right_cancel this
  have h2 : (m1.setListAt tl (toList.insertItem ti item)).allItems =
      m1.allItems + {item} := by
    have := e2'
    rw [← add_assoc] at this
    exact add_right_cancel this
  rw [h2, h1]

/-- Witness for C10 on a concrete cross-list move. -/
theorem C10_moveItem_preserves_items_witness :
    (KanbanModel.mk [⟨"B", [⟨"a", 0⟩]⟩, ⟨"C", []⟩]).allItems =
      (KanbanModel.mk [⟨"B", []⟩, ⟨"C", [⟨"a", 0⟩]⟩]).allItems ∧
    Multiset.card (KanbanModel.mk [⟨"B", [⟨"a", 0⟩]⟩, ⟨"C", []⟩]).allItems =
      Multiset.card (KanbanModel.mk [⟨"B", []⟩, ⟨"C", [⟨"a", 0⟩]⟩]).allItems := by
  have h := C10_moveItem_preserves_items
    ⟨[⟨"B", []⟩, ⟨"C", [⟨"a", 0⟩]⟩]⟩ ⟨[⟨"B", [⟨"a", 0⟩]⟩, ⟨"C", []⟩]⟩
    1 0 0 0 rfl
  exact h

/-! ### The deserialize well-formedness invariant -/

theorem wfItem_of_matchText {raw pre mid suf : List Char}
    (h : matchText raw = some (pre, mid, suf)) :
    wfItem ⟨String.mk mid, min (min 3 pre.length) suf.length⟩ := by
  obtain ⟨-, -, -, hh, hr, hnil, hterm⟩ := matchText_props h
  refine ⟨hterm, hh, hr, ?_, ?_⟩
  · exact le_trans (Nat.min_le_left _ _) (Nat.min_le_left _ _)
  · intro hm
    have : suf = [] := hnil hm
    rw [this]
    simp

theorem deserializeLine_wf {m m2 : KanbanModel} {l : List Char}
    (hwf : wfBoard m) (h : deserializeLine m l = some m2) : wfBoard m2 := by
  unfold deserializeLine at h
  cases hl : matchList l with
  | some r =>
    rw [hl] at h
    dsimp only at h
    simp only [Option.some.injEq] at h
    subst h
    intro x hx
    unfold KanbanModel.addList at hx
    dsimp only at hx
    rcases List.mem_append.mp hx with hx | hx
    · exact hwf x hx
    · simp only [List.mem_singleton] at hx
      subst hx
      obtain ⟨h1, h2⟩ := matchList_some_props hl
      exact ⟨⟨h1, h2⟩, by simp⟩
  | none =>
    rw [hl] at h
    dsimp only at h
    cases hi : matchItem l with
    | none =>
      rw [hi] at h
      dsimp only at h
      simp only [Option.some.injEq] at h
      subst h
      exact hwf
    | some raw =>
      rw [hi] at h
      dsimp only at h
      cases hlast : m.lists[m.lists.length - 1]? with
      | none =>
        rw [hlast] at h
        dsimp only at h
        simp only [Option.some.injEq] at h
        subst h
        exact hwf
      | some last =>
        rw [hlast] at h
        dsimp only at h
        cases hmt : matchText raw with
        | none =>
          rw [hmt] at h
          exact absurd h (by simp)
        | some triple =>
          obtain ⟨pre, mid, suf⟩ := triple
          rw [hmt] at h
          dsimp only at h
          simp only [Option.some.injEq] at h
          subst h
          intro x hx
          unfold KanbanModel.setListAt at hx
          dsimp only at hx
          rcases List.mem_or_eq_of_mem_set hx with hx | hx
          · exact hwf x hx
          · subst hx
            have hlastwf : wfList last := hwf last (List.getElem?_mem hlast)
            unfold KanbanModelList.addItem
            refine ⟨hlastwf.1, ?_⟩
            intro it hit
            rcases List.mem_append.mp hit with hit | hit
            · exact hlastwf.2 it hit
            · simp only [List.mem_singleton] at hit
              subst hit
              exact wfItem_of_matchText hmt

theorem processLines_wf {m m2 : KanbanModel} {ls : List (List Char)}
    (hwf : wfBoard m) (h : processLines m ls = some m2) : wfBoard m2 := by
  induction ls generalizing m with
  | nil =>
    unfold processLines at h
    simp only [Option.some.injEq] at h
    subst h
    exact hwf
  | cons l t ih =>
    unfold processLines at h
    cases hd : deserializeLine m l with
    | none => rw [hd] at h; exact absurd h (by simp)
    | some mm =>
      rw [hd] at h
      dsimp only at h
      exact ih (deserializeLine_wf hwf hd) h

theorem deserialize_wf (s : String) : wfBoard (KanbanModel.deserialize s) := by
  unfold KanbanModel.deserialize
  cases hp : processLines ⟨[]⟩ (splitLines s.toList) with
  | none =>
    dsimp only
    intro x hx
    exact absurd hx (by simp)
  | some m =>
    dsimp only
    exact processLines_wf (by intro x hx; exact absurd hx (by simp)) hp

/-! ### Claim C9: importance is always in range -/

/-- C9: every item of every board produced by `deserialize` has importance
in `[0, 3]`; in particular `"****text****"` (four markers each side) parses
to importance `3`, not `4`. -/
theorem C9_importance_range :
    (∀ (s : String) (l : KanbanModelList) (it : KanbanModelItem),
        l ∈ (KanbanModel.deserialize s).lists → it ∈ l.items →
        0 ≤ it.importance ∧ it.importance ≤ 3) ∧
    KanbanModel.deserialize "* L\n  * ****text****" =
      ⟨[⟨"L", [⟨"text", 3⟩]⟩]⟩ := by
  refine ⟨?_, by decide⟩
  intro s l it hl hit
  have hwf := deserialize_wf s
  exact ⟨Nat.zero_le _, ((hwf l hl).2 it hit).2.2.2.1⟩

/-- Witness for C9 on a concrete parsed board. -/
theorem C9_importance_range_witness :
    0 ≤ (KanbanModelItem.mk "text" 3).importance ∧
    (KanbanModelItem.mk "text" 3).importance ≤ 3 :=
  C9_importance_range.1 "* L\n  * ****text****" ⟨"L", [⟨"text", 3⟩]⟩
    ⟨"text", 3⟩ (by decide) (by decide)

/-! ### String-level to character-level bridging -/

theorem toList_append (a b : String) :
    (a ++ b).toList = a.toList ++ b.toList := by
  cases a
  cases b
  rfl

theorem toList_joinLines (xs : List String) :
    (joinLines xs).toList = joinNLC (xs.map String.toList) := by
  induction xs with
  | nil => rfl
  | cons x t ih =>
    cases t with
    | nil => rfl
    | cons y u =>
      show (x ++ "\n" ++ joinLines (y :: u)).toList =
        joinNLC (x.toList :: (y :: u).map String.toList)
      rw [toList_append, toList_append, ih]
      show x.toList ++ ['\n'] ++ joinNLC ((y :: u).map String.toList) =
        x.toList ++ '\n' :: joinNLC ((y :: u).map String.toList)
      rw [List.append_assoc]
      rfl

theorem itemLine_toList (it : KanbanModelItem) :
    ("  * " ++ it.toMarkdown).toList = itemLineC it := by
  rw [toList_append]
  unfold KanbanModelItem.toMarkdown itemLineC emphChars
  dsimp only
  rw [toList_append, toList_append]
  rfl

theorem toMarkdown_toList (l : KanbanModelList) :
    l.toMarkdown.toList = joinNLC (blockLinesC l) := by
  unfold KanbanModelList.toMarkdown blockLinesC
  rw [toList_joinLines]
  simp only [List.map_cons, List.map_map]
  congr 1

theorem serialize_toList (m : KanbanModel) :
    m.serialize.toList =
      joinNLC (m.lists.map (fun l => joinNLC (blockLinesC l))) := by
  unfold KanbanModel.serialize
  rw [toList_joinLines, List.map_map]
  congr 1
  exact List.map_congr_left (fun l _ => toMarkdown_toList l)

/-! ### Joining and splitting lines -/

theorem joinNLC_cons_ne (l : List Char) (ls : List (List Char)) (h : ls ≠ []) :
    joinNLC (l :: ls) = l ++ '\n' :: joinNLC ls := by
  cases ls with
  | nil => exact absurd rfl h
  | cons a t => rfl

theorem joinNLC_append (A R : List (List Char)) (hA : A ≠ []) (hR : R ≠ []) :
    joinNLC (A ++ R) = joinNLC A ++ '\n' :: joinNLC R := by
  induction A with
  | nil => exact absurd rfl hA
  | cons a A2 ih =>
    cases A2 with
    | nil =>
      rw [List.singleton_append, joinNLC_cons_ne a R hR]
      rfl
    | cons a2 A3 =>
      have h1 : (a :: a2 :: A3) ++ R = a :: ((a2 :: A3) ++ R) := rfl
      rw [h1, joinNLC_cons_ne a ((a2 :: A3) ++ R) (by simp),
        ih (by simp), joinNLC_cons_ne a (a2 :: A3) (by simp)]
      simp [List.append_assoc]

theorem joinNLC_map_join (Bs : List (List (List Char)))
    (h : ∀ b ∈ Bs, b ≠ []) :
    joinNLC (Bs.map joinNLC) = joinNLC Bs.flatten := by
  induction Bs with
  | nil => rfl
  | cons b t ih =>
    rw [List.map_cons, List.flatten_cons]
    cases t with
    | nil =>
      rw [List.map_nil, List.flatten_nil, List.append_nil]
      rfl
    | cons c t2 =>
      have hcne : (c :: t2).flatten ≠ [] := by
        rw [List.flatten_cons]
        have hc : c ≠ [] := h c (by simp)
        cases c with
        | nil => exact absurd rfl hc
        | cons x xs => simp
      rw [joinNLC_cons_ne (joinNLC b) (List.map joinNLC (c :: t2)) (by simp),
        joinNLC_append b (c :: t2).flatten (h b (by simp)) hcne,
        ih (fun x hx => h x (by simp [hx]))]

theorem splitLines_no_newline (l : List Char) (h : '\n' ∉ l) :
    splitLines l = [l] := by
  induction l with
  | nil => rfl
  | cons c t ih =>
    unfold splitLines
    rw [if_neg (by intro hc; exact h (by simp [hc]))]
    rw [ih (by intro hc; exact h (by simp [hc]))]

theorem splitLines_append (x r : List Char) (h : '\n' ∉ x) :
    splitLines (x ++ '\n' :: r) = x :: splitLines r := by
  induction x with
  | nil =>
    show splitLines ('\n' :: r) = [] :: splitLines r
    simp only [splitLines]
    simp
  | cons c t ih =>
    show splitLines (c :: (t ++ '\n' :: r)) = (c :: t) :: splitLines r
    simp only [splitLines]
    rw [if_neg (by intro hc; exact h (by simp [hc]))]
    rw [ih (by intro hc; exact h (by simp [hc]))]

theorem splitLines_joinNLC (L : List (List Char)) (hL : L ≠ [])
    (h : ∀ l ∈ L, '\n' ∉ l) :
    splitLines (joinNLC L) = L := by
  induction L with
  | nil => exact absurd rfl hL
  | cons x t ih =>
    cases t with
    | nil => exact splitLines_no_newline x (h x (by simp))
    | cons y u =>
      rw [joinNLC_cons_ne x (y :: u) (by simp)]
      rw [splitLines_append x _ (h x (by simp))]
      rw [ih (by simp) (fun l hl => h l (by simp [hl]))]

/-! ### Parsing the serialized lines back -/

theorem takeWhile_of_headSatisfies {p : Char → Bool} {l : List Char}
    (h : headSatisfies (fun c => !p c) l = true) : l.takeWhile p = [] := by
  cases l with
  | nil => rfl
  | cons c t =>
    simp only [headSatisfies, Bool.not_eq_true'] at h
    exact List.takeWhile_cons_of_neg (by simp [h])

theorem no_newline_of_no_term {l : List Char}
    (h : l.all (fun c => !isLineTerm c) = true) : '\n' ∉ l := by
  intro hmem
  rw [List.all_eq_true] at h
  have h2 := h '\n' hmem
  exact absurd h2 (by decide)

theorem replicate_star_all_not_term (n : Nat) :
    (List.replicate n '*').all (fun c => !isLineTerm c) = true := by
  rw [List.all_eq_true]
  intro c hc
  rw [List.eq_of_mem_replicate hc]
  decide

theorem replicate_star_all_marker (n : Nat) :
    ∀ c ∈ List.replicate n '*', isMarker c = true := by
  intro c hc
  rw [List.eq_of_mem_replicate hc]
  decide

theorem itemMarkdown_all_not_term {it : KanbanModelItem} (hwf : wfItem it) :
    (emphChars it ++ it.name.toList ++ emphChars it).all
      (fun c => !isLineTerm c) = true := by
  unfold emphChars
  simp only [List.all_append, Bool.and_eq_true]
  exact ⟨⟨replicate_star_all_not_term _, hwf.1⟩, replicate_star_all_not_term _⟩

theorem matchList_listLine (nm : List Char) (hwf : wfListName nm) :
    matchList ('*' :: ' ' :: nm) = some nm := by
  simp only [matchList]
  rw [if_pos (by decide)]
  have hd : (' ' :: nm).dropWhile isJsSpace = nm := by
    rw [List.dropWhile_cons_of_pos (by decide)]
    exact dropWhile_of_headSatisfies hwf.2
  rw [hd, if_pos hwf.1]

theorem matchList_itemLine (it : KanbanModelItem) :
    matchList (itemLineC it) = none := by
  simp only [itemLineC, matchList]
  rw [if_neg (by decide)]

theorem matchItem_itemLine (it : KanbanModelItem) (hwf : wfItem it)
    (hns : it.importance = 0 →
      headSatisfies (fun c => !isJsSpace c) it.name.toList = true) :
    matchItem (itemLineC it) =
      some (emphChars it ++ it.name.toList ++ emphChars it) := by
  unfold matchItem itemLineC
  have htake : (' ' :: ' ' :: '*' :: ' ' ::
      (emphChars it ++ it.name.toList ++ emphChars it)).takeWhile isJsSpace =
      [' ', ' '] := by
    rw [List.takeWhile_cons_of_pos (by decide),
      List.takeWhile_cons_of_pos (by decide),
      List.takeWhile_cons_of_neg (by decide)]
  have hdrop : (' ' :: ' ' :: '*' :: ' ' ::
      (emphChars it ++ it.name.toList ++ emphChars it)).dropWhile isJsSpace =
      '*' :: ' ' :: (emphChars it ++ it.name.toList ++ emphChars it) := by
    rw [List.dropWhile_cons_of_pos (by decide),
      List.dropWhile_cons_of_pos (by decide),
      List.dropWhile_cons_of_neg (by decide)]
  rw [htake, hdrop]
  dsimp only
  rw [if_pos (by decide)]
  have hr : (' ' :: (emphChars it ++ it.name.toList ++ emphChars it)).dropWhile
      isJsSpace = emphChars it ++ it.name.toList ++ emphChars it := by
    rw [List.dropWhile_cons_of_pos (by decide)]
    cases himp : it.importance with
    | zero =>
      have hE : emphChars it = [] := by rw [emphChars, himp]; rfl
      rw [hE]
      show (([] ++ it.name.toList) ++ []).dropWhile isJsSpace =
        ([] ++ it.name.toList) ++ []
      rw [List.nil_append, List.append_nil]
      exact dropWhile_of_headSatisfies (hns himp)
    | succ k =>
      have hE : emphChars it = '*' :: List.replicate k '*' := by
        rw [emphChars, himp]; rfl
      rw [hE]
      show (('*' :: List.replicate k '*' ++ it.name.toList) ++
        ('*' :: List.replicate k '*')).dropWhile isJsSpace = _
      rw [List.cons_append, List.cons_append,
        List.dropWhile_cons_of_neg (by decide)]
  rw [hr, if_pos (itemMarkdown_all_not_term hwf)]

theorem matchText_itemMarkdown (it : KanbanModelItem) (hwf : wfItem it) :
    matchText (emphChars it ++ it.name.toList ++ emphChars it) =
      some (emphChars it, it.name.toList, emphChars it) := by
  unfold matchText
  rw [if_pos (itemMarkdown_all_not_term hwf)]
  cases hnm : it.name.toList with
  | nil =>
    have h0 : it.importance = 0 := hwf.2.2.2.2 hnm
    have hE : emphChars it = [] := by rw [emphChars, h0]; rfl
    rw [hE]
    rfl
  | cons c nms =>
    have hh : isMarker c = false := by
      have h2 := hwf.2.1
      rw [hnm] at h2
      simpa [headSatisfies] using h2
    have hEm : ∀ x ∈ emphChars it, isMarker x = true := by
      unfold emphChars
      exact replicate_star_all_marker _
    have hErev : (emphChars it).reverse = emphChars it := by
      unfold emphChars
      exact List.reverse_replicate _ _
    obtain ⟨d, ds, hds⟩ : ∃ d ds, (c :: nms).reverse = d :: ds := by
      cases hx : (c :: nms).reverse with
      | nil => exact absurd hx (by simp)
      | cons d ds => exact ⟨d, ds, rfl⟩
    have hd : isMarker d = false := by
      have h3 := hwf.2.2.1
      rw [hnm, hds] at h3
      simpa [headSatisfies] using h3
    have htk : (emphChars it ++ (c :: nms) ++ emphChars it).takeWhile
        isMarker = emphChars it := by
      rw [List.append_assoc, List.takeWhile_append_of_pos hEm,
        List.cons_append, List.takeWhile_cons_of_neg (by simp [hh]),
        List.append_nil]
    have hdw : (emphChars it ++ (c :: nms) ++ emphChars it).dropWhile
        isMarker = (c :: nms) ++ emphChars it := by
      rw [List.append_assoc, List.dropWhile_append_of_pos hEm,
        List.cons_append, List.dropWhile_cons_of_neg (by simp [hh]),
        ← List.cons_append]
    have hrev2 : ((c :: nms) ++ emphChars it).reverse =
        emphChars it ++ (c :: nms).reverse := by
      rw [List.reverse_append, hErev]
    have htk2 : (emphChars it ++ (c :: nms).reverse).takeWhile isMarker =
        emphChars it := by
      rw [List.takeWhile_append_of_pos hEm, hds,
        List.takeWhile_cons_of_neg (by simp [hd]), List.append_nil]
    have hdw2 : (emphChars it ++ (c :: nms).reverse).dropWhile isMarker =
        (c :: nms).reverse := by
      rw [List.dropWhile_append_of_pos hEm, hds,
        List.dropWhile_cons_of_neg (by simp [hd])]
    rw [htk, hdw, hrev2, htk2, hdw2, hErev, List.reverse_reverse]

/-! ### Re-deserializing a serialized well-formed board -/

theorem deserializeLine_listLine (m : KanbanModel) (nm : String)
    (hwf : wfListName nm.toList) :
    deserializeLine m ('*' :: ' ' :: nm.toList) = some (m.addList nm) := by
  unfold deserializeLine
  rw [matchList_listLine nm.toList hwf]
  dsimp only
  have heta : String.mk nm.toList = nm := rfl
  rw [heta]

theorem deserializeLine_itemLine (m : KanbanModel)
    (L : List KanbanModelList) (last : KanbanModelList)
    (it : KanbanModelItem) (hm : m.lists = L ++ [last]) (hwf : wfItem it)
    (hns : it.importance = 0 →
      headSatisfies (fun c => !isJsSpace c) it.name.toList = true) :
    deserializeLine m (itemLineC it) =
      some ⟨L ++ [⟨last.name, last.items ++ [it]⟩]⟩ := by
  have h1 := deserializeLine_item (matchList_itemLine it)
    (matchItem_itemLine it hwf hns) hm (matchText_itemMarkdown it hwf)
  rw [h1]
  have hlen : (emphChars it).length = it.importance := by
    unfold emphChars
    exact List.length_replicate _ _
  have hmin : min (min 3 (emphChars it).length) (emphChars it).length =
      it.importance := by
    rw [hlen, Nat.min_eq_right hwf.2.2.2.1, Nat.min_self]
  have h2 : (⟨String.mk it.name.toList,
      min (min 3 (emphChars it).length) (emphChars it).length⟩ :
      KanbanModelItem) = it := by
    rw [hmin]
    cases it
    rfl
  rw [h2]

theorem processLines_append (m m2 : KanbanModel) (ls1 ls2 : List (List Char))
    (h : processLines m ls1 = some m2) :
    processLines m (ls1 ++ ls2) = processLines m2 ls2 := by
  induction ls1 generalizing m with
  | nil =>
    unfold processLines at h
    simp only [Option.some.injEq] at h
    subst h
    rfl
  | cons x t ih =>
    rw [List.cons_append]
    cases hd : deserializeLine m x with
    | none =>
      unfold processLines at h
      rw [hd] at h
      exact absurd h (by simp)
    | some mm =>
      have hh : processLines mm t = some m2 := by
        unfold processLines at h
        rw [hd] at h
        exact h
      have hL : processLines m (x :: (t ++ ls2)) =
          processLines mm (t ++ ls2) := by
        show (match deserializeLine m x with
          | some mz => processLines mz (t ++ ls2)
          | none => none) = processLines mm (t ++ ls2)
        rw [hd]
      rw [hL]
      exact ih mm hh

theorem processLines_itemLines (L : List KanbanModelList) (nm : String)
    (todo : List KanbanModelItem) :
    ∀ (done : List KanbanModelItem),
      (∀ it ∈ todo, wfItem it) →
      (∀ it ∈ todo, it.importance = 0 →
        headSatisfies (fun c => !isJsSpace c) it.name.toList = true) →
      processLines ⟨L ++ [⟨nm, done⟩]⟩ (todo.map itemLineC) =
        some ⟨L ++ [⟨nm, done ++ todo⟩]⟩ := by
  induction todo with
  | nil =>
    intro done _ _
    rw [List.map_nil, List.append_nil]
    rfl
  | cons it rest ih =>
    intro done hwf hns
    rw [List.map_cons]
    unfold processLines
    have hstep1 := deserializeLine_itemLine ⟨L ++ [⟨nm, done⟩]⟩ L ⟨nm, done⟩
      it rfl (hwf it (by simp)) (hns it (by simp))
    rw [hstep1]
    dsimp only
    have hstep := ih (done ++ [it]) (fun x hx => hwf x (by simp [hx]))
      (fun x hx => hns x (by simp [hx]))
    rw [hstep, List.append_assoc]
    rfl

theorem processLines_blocks (lists : List KanbanModelList) :
    ∀ (acc : List KanbanModelList),
      (∀ l ∈ lists, wfList l) →
      (∀ l ∈ lists, ∀ it ∈ l.items, it.importance = 0 →
        headSatisfies (fun c => !isJsSpace c) it.name.toList = true) →
      processLines ⟨acc⟩ (lists.flatMap blockLinesC) =
        some ⟨acc ++ lists⟩ := by
  induction lists with
  | nil =>
    intro acc _ _
    rw [List.flatMap_nil, List.append_nil]
    rfl
  | cons l rest ih =>
    intro acc hwf hns
    rw [List.flatMap_cons]
    show processLines ⟨acc⟩
      ((('*' :: ' ' :: l.name.toList) :: l.items.map itemLineC) ++
        rest.flatMap blockLinesC) = _
    rw [List.cons_append]
    unfold processLines
    rw [deserializeLine_listLine ⟨acc⟩ l.name (hwf l (by simp)).1]
    dsimp only
    unfold KanbanModel.addList
    dsimp only
    have hstep : processLines ⟨acc ++ [⟨l.name, []⟩]⟩
        ((l.items.map itemLineC) ++ rest.flatMap blockLinesC) =
        processLines ⟨acc ++ [⟨l.name, l.items⟩]⟩
          (rest.flatMap blockLinesC) := by
      apply processLines_append
      have h2 := processLines_itemLines acc l.name l.items []
        (fun it hit => (hwf l (by simp)).2 it hit)
        (fun it hit => hns l (by simp) it hit)
      simpa using h2
    rw [hstep]
    have heta : (⟨l.name, l.items⟩ : KanbanModelList) = l := rfl
    rw [heta]
    rw [ih (acc ++ [l]) (fun x hx => hwf x (by simp [hx]))
      (fun x hx => hns x (by simp [hx]))]
    rw [List.append_assoc]
    rfl

theorem blockLinesC_no_newline {l : KanbanModelList} (hwf : wfList l) :
    ∀ line ∈ blockLinesC l, '\n' ∉ line := by
  intro line hline
  unfold blockLinesC at hline
  rcases List.mem_cons.mp hline with hline | hline
  · subst hline
    intro hmem
    simp only [List.mem_cons] at hmem
    rcases hmem with h1 | h1 | h1
    · exact absurd h1 (by decide)
    · exact absurd h1 (by decide)
    · exact no_newline_of_no_term hwf.1.1 h1
  · rw [List.mem_map] at hline
    obtain ⟨it, hit, hlin⟩ := hline
    subst hlin
    intro hmem
    unfold itemLineC at hmem
    simp only [List.mem_cons, List.mem_append] at hmem
    have hE : '\n' ∉ emphChars it := by
      intro hmem2
      unfold emphChars at hmem2
      exact absurd (List.eq_of_mem_replicate hmem2) (by decide)
    rcases hmem with h1 | h1 | h1 | h1 | (h1 | h1) | h1
    · exact absurd h1 (by decide)
    · exact absurd h1 (by decide)
    · exact absurd h1 (by decide)
    · exact absurd h1 (by decide)
    · exact hE h1
    · exact no_newline_of_no_term (hwf.2 it hit).1 h1
    · exact hE h1

theorem deserialize_serialize {b : KanbanModel} (hwf : wfBoard b)
    (hns : noLeadingSpaceZeroItems b) :
    KanbanModel.deserialize b.serialize = b := by
  cases hb : b.lists with
  | nil =>
    have hser : b.serialize = "" := by
      unfold KanbanModel.serialize
      rw [hb]
      rfl
    rw [hser]
    have hb2 : b = ⟨[]⟩ := by
      cases b
      simp only [KanbanModel.mk.injEq]
      exact hb
    rw [hb2]
    rfl
  | cons l0 rest =>
    have hblocks_ne : ∀ x ∈ b.lists.map blockLinesC, x ≠ [] := by
      intro x hx
      rw [List.mem_map] at hx
      obtain ⟨l, -, hxl⟩ := hx
      subst hxl
      unfold blockLinesC
      simp
    have hnonl : ∀ line ∈ b.lists.flatMap blockLinesC, '\n' ∉ line := by
      intro line hline
      rw [List.mem_flatMap] at hline
      obtain ⟨l, hl, hlin⟩ := hline
      exact blockLinesC_no_newline (hwf l hl) line hlin
    have hne : b.lists.flatMap blockLinesC ≠ [] := by
      rw [hb, List.flatMap_cons]
      unfold blockLinesC
      simp
    unfold KanbanModel.deserialize
    have hsplit : splitLines b.serialize.toList = b.lists.flatMap blockLinesC := by
      rw [serialize_toList]
      have hmm : b.lists.map (fun l => joinNLC (blockLinesC l)) =
          (b.lists.map blockLinesC).map joinNLC := by
        rw [List.map_map]
        rfl
      rw [hmm, joinNLC_map_join _ hblocks_ne]
      have hbind : (b.lists.map blockLinesC).flatten =
          b.lists.flatMap blockLinesC := rfl
      rw [hbind]
      exact splitLines_joinNLC _ hne hnonl
    rw [hsplit, processLines_blocks b.lists [] hwf hns]
    rfl

/-! ### Claim C1: the round-trip property -/

/-- C1 as stated is false: deserializing `"* L\n  * * x"` yields an item
named `" x"` with importance `0`; its serialization `"* L\n  *  x"`
re-parses to the item `"x"`, because the greedy `\s*` after the bullet
swallows the leading space of the name. -/
theorem C1_roundtrip_counterexample :
    (KanbanModel.deserialize
        ((KanbanModel.deserialize "* L\n  * * x").serialize)).equals
      (KanbanModel.deserialize "* L\n  * * x") = false := by
  decide

/-- C1 (amended): for every board `b` produced by `deserialize` in which no
importance-0 item has a name beginning with a whitespace character,
`deserialize(serialize(b))` is structurally equal to `b`
(`deserialize(serialize(b)).equals(b)` holds). -/
theorem C1_roundtrip_amended (s : String)
    (hns : noLeadingSpaceZeroItems (KanbanModel.deserialize s)) :
    (KanbanModel.deserialize
        ((KanbanModel.deserialize s).serialize)).equals
      (KanbanModel.deserialize s) = true := by
  rw [deserialize_serialize (deserialize_wf s) hns]
  simp [KanbanModel.equals]

/-- Witness for the amended C1 on the spec's own example input. -/
theorem C1_roundtrip_amended_witness :
    noLeadingSpaceZeroItems
      (KanbanModel.deserialize "* Todo\n  * Buy milk\n  * **Call mom**") ∧
    (KanbanModel.deserialize
        ((KanbanModel.deserialize
          "* Todo\n  * Buy milk\n  * **Call mom**").serialize)).equals
      (KanbanModel.deserialize "* Todo\n  * Buy milk\n  * **Call mom**") =
      true :=
  ⟨by decide, C1_roundtrip_amended "* Todo\n  * Buy milk\n  * **Call mom**"
    (by decide)⟩

/-! ### Claim C5: the serialization format -/

/-- C5: `serialize` is the newline-join of each list's `toMarkdown` block in
list order; a block is the line `"* <name>"` followed by one line
`"  * <item.toMarkdown()>"` per item in order; an item's `toMarkdown` wraps
its name symmetrically in `importance` repetitions of `*` on each side; and
the joined character stream consists exactly of those block lines, none of
which is blank. -/
theorem C5_serialize_format :
    (∀ m : KanbanModel,
        m.serialize = joinLines (m.lists.map KanbanModelList.toMarkdown)) ∧
    (∀ l : KanbanModelList,
        l.toMarkdown = joinLines (("* " ++ l.name) ::
          l.items.map (fun i => "  * " ++ i.toMarkdown))) ∧
    (∀ it : KanbanModelItem,
        it.toMarkdown =
          String.mk (List.replicate it.importance '*') ++ it.name ++
            String.mk (List.replicate it.importance '*')) ∧
    (∀ m : KanbanModel,
        m.serialize.toList = joinNLC (m.lists.flatMap blockLinesC) ∧
        ∀ line ∈ m.lists.flatMap blockLinesC, line ≠ []) := by
  refine ⟨fun m => rfl, fun l => rfl, fun it => rfl, fun m => ⟨?_, ?_⟩⟩
  · rw [serialize_toList]
    have hmm : m.lists.map (fun l => joinNLC (blockLinesC l)) =
        (m.lists.map blockLinesC).map joinNLC := by
      rw [List.map_map]
      rfl
    rw [hmm, joinNLC_map_join]
    · rfl
    · intro x hx
      rw [List.mem_map] at hx
      obtain ⟨l, -, hxl⟩ := hx
      subst hxl
      unfold blockLinesC
      simp
  · intro line hline
    rw [List.mem_flatMap] at hline
    obtain ⟨l, -, hlin⟩ := hline
    rcases List.mem_cons.mp hlin with h1 | h1
    · subst h1
      simp
    · rw [List.mem_map] at h1
      obtain ⟨it, -, h2⟩ := h1
      subst h2
      unfold itemLineC
      simp

/-- Witness for C5 on a concrete one-list board. -/
theorem C5_serialize_format_witness :
    (KanbanModel.mk [⟨"A", [⟨"x", 1⟩]⟩]).serialize.toList =
      joinNLC ((KanbanModel.mk [⟨"A", [⟨"x", 1⟩]⟩]).lists.flatMap
        blockLinesC) ∧
    ('*' :: ' ' :: "A".toList) ≠ [] :=
  ⟨(C5_serialize_format.2.2.2 ⟨[⟨"A", [⟨"x", 1⟩]⟩]⟩).1,
    (C5_serialize_format.2.2.2 ⟨[⟨"A", [⟨"x", 1⟩]⟩]⟩).2
      ('*' :: ' ' :: "A".toList) (by decide)⟩
